import Mathlib

/-!
Verification development for the rainbow-rich-auth-server repository.

The embedding models the two core service modules and the HTTP route layer:

* `services/firebaseService.js` (subscription state machine over a document
  store): `verifySubscription`, `subscribe`, `renewSubscription`,
  `cancelSubscription`, `getAllSubscriptions`, `getSubscriptionStats`.
* `services/authService.js` (request authenticator / credential verifier):
  `generateSignature`, `verifySignature`, `verifyAdminPassword`,
  `validateRequestData`, `isValidEmail`.
* the client route handlers of the main server file (the variant that derives
  a `success` flag by comparing the service message against the success
  string of the operation).

Modelling conventions:

* Instants (`Date.now()`, `new Date()`) are integers, milliseconds since the
  epoch.  The server clock is modelled in UTC, so `new Date("YYYY-MM-DD")`
  is `day * msPerDay` for the calendar-day number `day`, and
  `toISOString().split("T")[0]` of an instant `t` is the day number
  `t.fdiv msPerDay`.  A stored `expires` date string is represented by its
  day number.
* The document store is an association list keyed by username; the Firestore
  calls `get`/`set`/`update`/`delete` become `storeGet`/`storeSet`/
  `storeUpdate`-style pure functions threaded through each operation.
* JS objects used as signing payloads are association lists of `JVal` values
  in insertion order (JS object keys are unique; theorems carry `Nodup`
  hypotheses where the reasoning needs that).
* The HMAC-SHA256 digest and the SHA-256 digest are abstract parameters
  `hm, h : String → String`; every claim about the authenticator is
  independent of the digest internals.  Where a claim needs the shape of a
  real digest (64 lowercase hex characters) that shape is a hypothesis.
* `crypto.timingSafeEqual` throws on buffers of different length; the
  embedding returns `none` for the thrown case and the catch branches of
  the callers map it to `false`.
* `Buffer.from(s, "hex")` follows documented Node semantics: decode hex
  digit pairs from the left and truncate at the first invalid character
  (or at a trailing lone digit).
-/

/-! ## Calendar arithmetic -/

def msPerDay : Int := 86400000

/-- Calendar-day number of an instant, i.e. the date part of
`new Date(t).toISOString()` under a UTC clock. -/
def dayOfMs (t : Int) : Int := t.fdiv msPerDay

/-! ## Subscription records and the document store -/

/-- One document of the `subscriptions` collection, as written by
`subscribe` / `renewSubscription`.  `expires` holds the day number of the
stored `YYYY-MM-DD` string. -/
structure SubscriptionRecord where
  username : String
  expires : Int
  createdAt : Option Int
  renewedAt : Option Int
  lastRenewalDuration : Option Int
  duration : Option Int
deriving DecidableEq, Repr

/-- The `subscriptions` collection: documents keyed by username, in
snapshot iteration order. -/
abbrev Store := List (String × SubscriptionRecord)

/-- Firestore `collection.doc(u).get()`. -/
def storeGet (s : Store) (u : String) : Option SubscriptionRecord :=
  (List.find? (fun kv => kv.1 == u) s).map Prod.snd

/-- Firestore `collection.doc(u).set(r)`: replace the document if present,
create it otherwise. -/
def storeSet : Store → String → SubscriptionRecord → Store
  | [], u, r => [(u, r)]
  | (k, v) :: rest, u, r =>
      if k == u then (u, r) :: rest else (k, v) :: storeSet rest u r

/-- Firestore `collection.doc(u).delete()`. -/
def storeDelete (s : Store) (u : String) : Store :=
  s.filter (fun kv => kv.1 != u)

/-- Shape of the objects returned by the firebaseService operations:
a message plus, on the successful paths that report one, the expiry day. -/
structure ServiceResult where
  message : String
  expires : Option Int
deriving DecidableEq, Repr

/-- Keys of the JS object literal a `ServiceResult` denotes: every return
site of the service builds either `{ message }` or `{ message, expires }`. -/
def serviceResultKeys (r : ServiceResult) : List String :=
  match r.expires with
  | some _ => ["message", "expires"]
  | none => ["message"]

/-! ## Subscription state machine (firebaseService.js) -/

/-- Embedding of `verifySubscription(username)` at instant `now`:
missing document, or `new Date() > new Date(expires)` comparison of the
current instant against midnight UTC of the stored expiry date. -/
def verifySubscription (now : Int) (s : Store) (username : String) : ServiceResult :=
  match storeGet s username with
  | none => ⟨"구독이 없습니다.", none⟩
  | some r =>
      if now > r.expires * msPerDay then ⟨"구독이 만료되었습니다.", none⟩
      else ⟨"구독이 유효합니다.", some r.expires⟩

/-- Embedding of `subscribe(username, duration)` at instant `now`:
`expires` set to the current date plus `duration` days, upserted
unconditionally. -/
def subscribe (now : Int) (s : Store) (username : String) (duration : Int) :
    ServiceResult × Store :=
  let expiryDay := dayOfMs now + duration
  let r : SubscriptionRecord :=
    { username := username, expires := expiryDay, createdAt := some now
      renewedAt := none, lastRenewalDuration := none, duration := some duration }
  (⟨"구독이 업데이트되었습니다.", some expiryDay⟩, storeSet s username r)

/-- Embedding of `renewSubscription(username, duration)` at instant `now`:
requires an existing document; the new expiry is computed from the stored
expiry date (`new Date(expires)` plus `duration` days), not from `now`, and
the update merges `expires`, `renewedAt` and `lastRenewalDuration`. -/
def renewSubscription (now : Int) (s : Store) (username : String) (duration : Int) :
    ServiceResult × Store :=
  match storeGet s username with
  | none => (⟨"갱신할 구독이 없습니다.", none⟩, s)
  | some r =>
      let newExpiry := r.expires + duration
      let r2 : SubscriptionRecord :=
        { r with expires := newExpiry, renewedAt := some now
                 lastRenewalDuration := some duration }
      (⟨"구독이 갱신되었습니다.", some newExpiry⟩, storeSet s username r2)

/-- Embedding of `cancelSubscription(username)`: requires an existing
document; hard delete. -/
def cancelSubscription (s : Store) (username : String) : ServiceResult × Store :=
  match storeGet s username with
  | none => (⟨"취소할 구독이 없습니다.", none⟩, s)
  | some _ => (⟨"구독이 취소되었습니다.", none⟩, storeDelete s username)

/-- One row of the `getAllSubscriptions` listing. -/
structure SubscriptionEntry where
  username : String
  expires : Int
  status : String
  createdAt : Option Int
deriving DecidableEq, Repr

/-- Loop body of `getAllSubscriptions`: the code calls `new Date()` inside
`snapshot.forEach`, so the `i`-th document is classified against its own
clock sample `nows i`. -/
def listScan (nows : Nat → Int) : List (String × SubscriptionRecord) → Nat → List SubscriptionEntry
  | [], _ => []
  | (u, r) :: rest, i =>
      let isExpired := nows i > r.expires * msPerDay
      ⟨u, r.expires, if isExpired then "만료" else "유효", r.createdAt⟩ :: listScan nows rest (i + 1)

/-- Embedding of `getAllSubscriptions()`, parameterised by the sequence of
per-document `new Date()` samples. -/
def getAllSubscriptions (nows : Nat → Int) (s : Store) : List SubscriptionEntry :=
  listScan nows s 0

/-- Counters of `getSubscriptionStats`. -/
structure SubscriptionStats where
  total : Nat
  active : Nat
  expired : Nat
deriving DecidableEq, Repr

/-- Loop body of `getSubscriptionStats`: like `getAllSubscriptions`, the
code samples `new Date()` once per document. -/
def statsScan (nows : Nat → Int) :
    List (String × SubscriptionRecord) → Nat → SubscriptionStats → SubscriptionStats
  | [], _, acc => acc
  | (_, r) :: rest, i, acc =>
      let isExpired := nows i > r.expires * msPerDay
      statsScan nows rest (i + 1)
        { total := acc.total + 1
          active := if isExpired then acc.active else acc.active + 1
          expired := if isExpired then acc.expired + 1 else acc.expired }

/-- Embedding of `getSubscriptionStats()`. -/
def getSubscriptionStats (nows : Nat → Int) (s : Store) : SubscriptionStats :=
  statsScan nows s 0 ⟨0, 0, 0⟩

/-! ## HTTP route layer (client routes of the main server file) -/

/-- JS truthiness of an optional string field (`undefined` and `""` are
falsy). -/
def truthyStr : Option String → Bool
  | none => false
  | some s => s != ""

/-- JS truthiness of an optional integer field (`undefined` and `0` are
falsy). -/
def truthyInt : Option Int → Bool
  | none => false
  | some n => n != 0

/-- Normalized body of a client route response. -/
structure RouteResponse where
  status : Nat
  success : Bool
  message : String
  expires : Option Int
deriving DecidableEq, Repr

/-- Embedding of the `POST /api/verify` handler: 400 on a falsy username,
otherwise wrap the service result, deriving `success` by comparing the
message against the success string. -/
def verifyRoute (now : Int) (s : Store) (username : Option String) : RouteResponse :=
  if !truthyStr username then ⟨400, false, "사용자명이 필요합니다.", none⟩
  else
    let result := verifySubscription now s (username.getD "")
    if result.message == "구독이 유효합니다." then
      ⟨200, true, "구독이 유효합니다.", result.expires⟩
    else ⟨200, false, result.message, none⟩

/-- JS `parseInt(days) || 30` applied to the defaulted `days` body field. -/
def daysOrDefault (days : Option Int) : Int :=
  match days with
  | none => 30
  | some d => if d == 0 then 30 else d

/-- Embedding of the `POST /api/subscribe` handler. -/
def subscribeRoute (now : Int) (s : Store) (username : Option String) (days : Option Int) :
    RouteResponse × Store :=
  if !truthyStr username then (⟨400, false, "사용자명이 필요합니다.", none⟩, s)
  else
    let duration := daysOrDefault days
    let result := subscribe now s (username.getD "") duration
    if result.1.message == "구독이 업데이트되었습니다." then
      (⟨200, true, "구독이 성공적으로 생성되었습니다.", result.1.expires⟩, result.2)
    else (⟨200, false, result.1.message, none⟩, result.2)

/-- Embedding of the `POST /api/renew` handler. -/
def renewRoute (now : Int) (s : Store) (username : Option String) (days : Option Int) :
    RouteResponse × Store :=
  if !truthyStr username then (⟨400, false, "사용자명이 필요합니다.", none⟩, s)
  else
    let duration := daysOrDefault days
    let result := renewSubscription now s (username.getD "") duration
    if result.1.message == "구독이 갱신되었습니다." then
      (⟨200, true, "구독이 성공적으로 갱신되었습니다.", result.1.expires⟩, result.2)
    else (⟨200, false, result.1.message, none⟩, result.2)

/-- Embedding of the `POST /api/cancel` handler. -/
def cancelRoute (s : Store) (username : Option String) : RouteResponse × Store :=
  if !truthyStr username then (⟨400, false, "사용자명이 필요합니다.", none⟩, s)
  else
    let result := cancelSubscription s (username.getD "")
    if result.1.message == "구독이 취소되었습니다." then
      (⟨200, true, "구독이 성공적으로 취소되었습니다.", none⟩, result.2)
    else (⟨200, false, result.1.message, none⟩, result.2)

/-! ## Request authenticator (authService.js) -/

/-- JSON values a request payload can hold (JS numbers are modelled as
integers; `undefined`-valued properties cannot occur in a parsed body). -/
inductive JVal where
  | str (s : String)
  | num (n : Int)
  | bool (b : Bool)
  | null
  | arr (elems : List JVal)
  | obj (fields : List (String × JVal))

/-- A JS object as a field map in insertion order. -/
abbrev Payload := List (String × JVal)

/-- Property access `fields[k]` on an object with unique keys. -/
def lookupField {β : Type} (fields : List (String × β)) (k : String) : Option β :=
  (List.find? (fun kv => kv.1 == k) fields).map Prod.snd

/-- Code-unit comparison of two strings as JS `Array.prototype.sort`
compares them (lexicographic on character values). -/
def charsLe : List Char → List Char → Bool
  | [], _ => true
  | _ :: _, [] => false
  | a :: as, b :: bs =>
      if a.toNat < b.toNat then true
      else if b.toNat < a.toNat then false
      else charsLe as bs

/-- String comparison used by `Object.keys(..).sort()`. -/
def stringLe (a b : String) : Bool := charsLe a.toList b.toList

/-- Insert a key into an already sorted key list. -/
def insertSorted (a : String) : List String → List String
  | [] => [a]
  | b :: rest => if stringLe a b then a :: b :: rest else b :: insertSorted a rest

/-- Embedding of `Object.keys(dataToSign).sort()` (insertion sort; for the
unique keys of a JS object any correct sort yields the same list). -/
def sortKeys : List String → List String
  | [] => []
  | a :: rest => insertSorted a (sortKeys rest)

/-- Hex digits of a number below 16 (lowercase, as `\uXXXX` escapes use). -/
def hexDigitChar (n : Nat) : Char :=
  if n < 10 then Char.ofNat (48 + n) else Char.ofNat (87 + n)

/-- Four-digit hex rendering for JSON control-character escapes. -/
def hex4 (n : Nat) : String :=
  String.mk [hexDigitChar (n / 4096 % 16), hexDigitChar (n / 256 % 16),
             hexDigitChar (n / 16 % 16), hexDigitChar (n % 16)]

/-- JSON escaping of one character, as `JSON.stringify` quotes strings. -/
def escapeChar (c : Char) : String :=
  if c = '"' then "\\\""
  else if c = '\\' then "\\\\"
  else if c = '\x08' then "\\b"
  else if c = '\x0c' then "\\f"
  else if c = '\n' then "\\n"
  else if c = '\r' then "\\r"
  else if c = '\t' then "\\t"
  else if c.toNat < 32 then "\\u" ++ hex4 c.toNat
  else String.singleton c

/-- JSON string quoting. -/
def quoteJSON (s : String) : String :=
  "\"" ++ String.join (s.toList.map escapeChar) ++ "\""

/-- Member list of a serialized object under an array replacer `K`: for each
key of `K` in order, the member is emitted exactly when the object has that
property (ECMA `SerializeJSONObject` with `PropertyList = K`). -/
def objMembers (K : List String) (pairs : List (String × String)) : List String :=
  K.filterMap (fun k => (lookupField pairs k).map (fun v => quoteJSON k ++ ":" ++ v))

/-- Embedding of `JSON.stringify(v, K)` for an array replacer `K`: the
replacer filters the properties of every object at every depth; array
elements are all kept. -/
def serializeVal (K : List String) : JVal → String
  | .str s => quoteJSON s
  | .num n => toString n
  | .bool true => "true"
  | .bool false => "false"
  | .null => "null"
  | .arr elems =>
      "[" ++ String.intercalate "," (elems.attach.map (fun x => serializeVal K x.1)) ++ "]"
  | .obj fields =>
      "\x7b" ++
        String.intercalate ","
          (objMembers K (fields.attach.map (fun x => (x.1.1, serializeVal K x.1.2)))) ++
        "\x7d"
decreasing_by
  · have := List.sizeOf_lt_of_mem x.2
    simp only [JVal.arr.sizeOf_spec]
    omega
  · have h1 := List.sizeOf_lt_of_mem x.2
    have h2 : sizeOf x.1.2 < sizeOf x.1 := by
      obtain ⟨a, b⟩ := x.1
      simp only [Prod.mk.sizeOf_spec]
      omega
    simp only [JVal.obj.sizeOf_spec]
    omega

/-- Canonical signing string of `generateSignature`: drop the `signature`
field, then `JSON.stringify(dataToSign, Object.keys(dataToSign).sort())`. -/
def canonicalMessage (data : Payload) : String :=
  let dataToSign := data.filter (fun kv => kv.1 != "signature")
  serializeVal (sortKeys (dataToSign.map Prod.fst)) (.obj dataToSign)

/-- Embedding of `generateSignature(data)`, with the keyed HMAC-SHA256
digest abstracted as `hm`. -/
def generateSignature (hm : String → String) (data : Payload) : String :=
  hm (canonicalMessage data)

/-- Value of a hex digit character (Node accepts both cases). -/
def hexVal (c : Char) : Option Nat :=
  if 48 ≤ c.toNat ∧ c.toNat ≤ 57 then some (c.toNat - 48)
  else if 97 ≤ c.toNat ∧ c.toNat ≤ 102 then some (c.toNat - 87)
  else if 65 ≤ c.toNat ∧ c.toNat ≤ 70 then some (c.toNat - 55)
  else none

/-- Documented Node `Buffer.from(s, "hex")` semantics: decode pairs of hex
digits left to right and truncate at the first invalid character or lone
trailing digit. -/
def decodeHexList : List Char → List Nat
  | c1 :: c2 :: rest =>
      match hexVal c1, hexVal c2 with
      | some h, some l => (16 * h + l) :: decodeHexList rest
      | _, _ => []
  | _ => []

/-- Bytes of `Buffer.from(s, "hex")`. -/
def bufferFromHex (s : String) : List Nat := decodeHexList s.toList

/-- `crypto.timingSafeEqual`: byte equality on equal-length buffers; the
`none` result models the exception thrown on a length mismatch. -/
def timingSafeEqual (a b : List Nat) : Option Bool :=
  if a.length == b.length then some (a == b) else none

/-- Embedding of `verifySignature(data, providedSignature)`: recompute the
expected signature and compare constant-time; the `catch` branch maps the
length-mismatch exception to `false`. -/
def verifySignature (hm : String → String) (data : Payload) (provided : String) : Bool :=
  match timingSafeEqual (bufferFromHex (generateSignature hm data)) (bufferFromHex provided) with
  | some b => b
  | none => false

/-- Embedding of `verifyAdminPassword(password)` with the stored digest and
the SHA-256 digest function abstracted; the `catch` branch maps the
length-mismatch exception to `false`. -/
def verifyAdminPassword (sha : String → String) (storedHash : String) (password : String) : Bool :=
  match timingSafeEqual (bufferFromHex storedHash) (bufferFromHex (sha password)) with
  | some b => b
  | none => false

/-- A string is well-formed hex when it has even length and only hex
digits. -/
def wellFormedHex (s : String) : Bool :=
  s.toList.all (fun c => (hexVal c).isSome) && s.toList.length % 2 == 0

/-- Lowercase hex digit, the alphabet of `hmac.digest("hex")`. -/
def isLowerHexDigit (c : Char) : Bool :=
  (48 ≤ c.toNat && c.toNat ≤ 57) || (97 ≤ c.toNat && c.toNat ≤ 102)

/-- Replace the last character of a string. -/
def flipLastChar (s : String) (c : Char) : String :=
  String.mk (s.toList.dropLast ++ [c])

/-! ## Envelope validation (validateRequestData) -/

/-- Inbound request envelope fields used by `validateRequestData`
(`none` models an absent field). -/
structure RequestData where
  username : Option String
  timestamp : Option Int
  signature : Option String

/-- Characters the JS `\s` class matches: the ECMAScript WhiteSpace set
(tab, LF, VT, FF, CR, space, NBSP, U+1680, U+2000 to U+200A, U+202F,
U+205F, U+3000, U+FEFF) plus the LineTerminator set (U+2028, U+2029). -/
def isJsSpace (c : Char) : Bool :=
  c == ' ' || c == '\t' || c == '\n' || c == '\r' || c == '\x0b' || c == '\x0c' ||
  c.toNat == 160 || c.toNat == 5760 ||
  (8192 ≤ c.toNat && c.toNat ≤ 8202) ||
  c.toNat == 8232 || c.toNat == 8233 || c.toNat == 8239 || c.toNat == 8287 ||
  c.toNat == 12288 || c.toNat == 65279

/-- One character of the `[^\s@]` atom. -/
def emailAtomChar (c : Char) : Bool := !isJsSpace c && c != '@'

/-- Whether some `.` of `d` has a nonempty `[^\s@]*` part on each side. -/
def hasInteriorDot (d : List Char) : Bool :=
  (List.range d.length).any (fun j => d.getD j ' ' == '.' && decide (0 < j) && decide (j + 1 < d.length))

/-- Embedding of `isValidEmail`: the regex
`^[^\s@]+@[^\s@]+\.[^\s@]+$` matches exactly the strings with no
whitespace, exactly one `@` with a nonempty local part, and a dot in the
interior of the domain part. -/
def isValidEmail (s : String) : Bool :=
  match s.toList.splitOn '@' with
  | [l, d] => !l.isEmpty && l.all emailAtomChar && d.all emailAtomChar && hasInteriorDot d
  | _ => false

/-- Result object of `validateRequestData`. -/
structure ValidationResult where
  isValid : Bool
  errors : List String
deriving DecidableEq, Repr

/-- Embedding of `validateRequestData(data)` at instant `now`: collect all
violations (required fields, the 300000 ms replay window via
`Math.abs(now - timestamp)`, and the email shape), in push order. -/
def validateRequestData (now : Int) (data : RequestData) : ValidationResult :=
  let e1 := if truthyStr data.username then [] else ["Username is required"]
  let e2 := if truthyInt data.timestamp then [] else ["Timestamp is required"]
  let e3 := if truthyStr data.signature then [] else ["Signature is required"]
  let e4 := match data.timestamp with
    | some ts =>
        if ts != 0 then
          if 300000 < (now - ts).natAbs then ["Request timestamp is too old"] else []
        else []
    | none => []
  let e5 := match data.username with
    | some u => if u != "" && !isValidEmail u then ["Invalid email format"] else []
    | none => []
  let errors := e1 ++ e2 ++ e3 ++ e4 ++ e5
  ⟨errors.isEmpty, errors⟩

/-! ## Store lemmas -/

theorem storeGet_storeSet_self (s : Store) (u : String) (r : SubscriptionRecord) :
    storeGet (storeSet s u r) u = some r := by
  induction s with
  | nil => simp [storeSet, storeGet, List.find?]
  | cons kv rest ih =>
      obtain ⟨k, v⟩ := kv
      simp only [storeSet]
      split
      · simp [storeGet, List.find?]
      · next hkne =>
          rw [storeGet, List.find?_cons_of_neg _ (by simpa using hkne)]
          exact ih

/-- C1: for a subject with a stored record expiring on day `D`, renewal by
`N` days yields expiry `D + N` computed from the stored expiry (no
dependence on `now`, so the rule also applies when `D` is already past),
and stamps `renewedAt` with the current instant. -/
theorem renew_extends_stored_expiry (now : Int) (s : Store) (u : String) (d : Int)
    (r : SubscriptionRecord) (h : storeGet s u = some r) :
    (renewSubscription now s u d).1.message = "구독이 갱신되었습니다." ∧
    (renewSubscription now s u d).1.expires = some (r.expires + d) ∧
    storeGet (renewSubscription now s u d).2 u =
      some { r with expires := r.expires + d, renewedAt := some now,
                    lastRenewalDuration := some d } := by
  have hs := storeGet_storeSet_self s u
    { r with expires := r.expires + d, renewedAt := some now, lastRenewalDuration := some d }
  simp [renewSubscription, h, hs]

def recPast : SubscriptionRecord :=
  { username := "a@b.com", expires := 19700, createdAt := some 1700000000000
    renewedAt := none, lastRenewalDuration := none, duration := some 30 }

theorem renew_extends_stored_expiry_witness :
    storeGet [("a@b.com", recPast)] "a@b.com" = some recPast ∧
    recPast.expires * msPerDay < 1750000000000 ∧
    (renewSubscription 1750000000000 [("a@b.com", recPast)] "a@b.com" 30).1.expires =
      some (19700 + 30) :=
  ⟨by decide, by decide,
    (renew_extends_stored_expiry 1750000000000 [("a@b.com", recPast)] "a@b.com" 30 recPast
      (by decide)).2.1⟩

/-! ## C2: status derivation boundary -/

def recBoundary : SubscriptionRecord :=
  { username := "a@b.com", expires := 20000, createdAt := some 1727000000000
    renewedAt := none, lastRenewalDuration := none, duration := some 30 }

/-- C2 counterexample: with a stored expiry on day 20000 the instant
`20000 * msPerDay + 1` lies on that same calendar day (its day number is
20000), yet Verify classifies the subscription as expired, while at the
exact midnight instant of the same day it classifies it as active.  So
`expiresOn == today` does not classify as Active, and the decision depends
on the time of day, not only on the calendar date. -/
theorem verify_boundary_counterexample :
    recBoundary.expires = 20000 ∧
    dayOfMs (20000 * msPerDay + 1) = 20000 ∧
    (verifySubscription (20000 * msPerDay + 1) [("a@b.com", recBoundary)] "a@b.com").message =
      "구독이 만료되었습니다." ∧
    dayOfMs (20000 * msPerDay) = 20000 ∧
    (verifySubscription (20000 * msPerDay) [("a@b.com", recBoundary)] "a@b.com").message =
      "구독이 유효합니다." := by
  refine ⟨rfl, by decide, ?_, by decide, ?_⟩ <;> decide

/-- C2 (amended): Verify classifies a stored record as expired exactly when
the current instant is strictly after midnight UTC at the start of the
stored expiry date (`now > expiresOn * msPerDay`), and as active (carrying
the stored expiry) exactly otherwise; so a record whose expiry date equals
the current date is reported expired at any instant strictly after that
midnight, and the decision depends on the instant, not only on the
calendar date. -/
theorem verify_expiry_instant_boundary (now : Int) (s : Store) (u : String)
    (r : SubscriptionRecord) (h : storeGet s u = some r) :
    ((verifySubscription now s u).message = "구독이 만료되었습니다." ↔
      now > r.expires * msPerDay) ∧
    ((verifySubscription now s u).message = "구독이 유효합니다." ↔
      ¬ now > r.expires * msPerDay) ∧
    (¬ now > r.expires * msPerDay → (verifySubscription now s u).expires = some r.expires) := by
  simp only [verifySubscription, h]
  by_cases hgt : now > r.expires * msPerDay
  · simp [hgt]
  · simp [hgt]

theorem verify_expiry_instant_boundary_witness :
    storeGet [("a@b.com", recBoundary)] "a@b.com" = some recBoundary ∧
    ((verifySubscription 1728000000001 [("a@b.com", recBoundary)] "a@b.com").message =
        "구독이 만료되었습니다." ↔ 1728000000001 > recBoundary.expires * msPerDay) :=
  ⟨by decide,
    (verify_expiry_instant_boundary 1728000000001 [("a@b.com", recBoundary)] "a@b.com"
      recBoundary (by decide)).1⟩

/-! ## C7: renew/cancel on an absent subject -/

/-- C7: renewing or cancelling a subject with no stored record returns the
respective not-found message and leaves the store untouched (in particular
no record is created). -/
theorem renew_cancel_absent_subject (now : Int) (s : Store) (u : String) (d : Int)
    (h : storeGet s u = none) :
    (renewSubscription now s u d).1.message = "갱신할 구독이 없습니다." ∧
    (renewSubscription now s u d).2 = s ∧
    (cancelSubscription s u).1.message = "취소할 구독이 없습니다." ∧
    (cancelSubscription s u).2 = s := by
  simp [renewSubscription, cancelSubscription, h]

theorem renew_cancel_absent_subject_witness :
    storeGet [("a@b.com", recBoundary)] "x@y.com" = none ∧
    (renewSubscription 1728000000000 [("a@b.com", recBoundary)] "x@y.com" 30).2 =
      [("a@b.com", recBoundary)] :=
  ⟨by decide,
    (renew_cancel_absent_subject 1728000000000 [("a@b.com", recBoundary)] "x@y.com" 30
      (by decide)).2.1⟩

/-! ## C9: clock sampling inside scans -/

def recScanB : SubscriptionRecord :=
  { username := "c@d.com", expires := 20000, createdAt := some 1727000000001
    renewedAt := none, lastRenewalDuration := none, duration := some 30 }

def storeScan : Store := [("a@b.com", recBoundary), ("c@d.com", recScanB)]

/-- Clock samples of one scan pass in which the clock ticks from the
midnight instant of day 20000 to one millisecond later between the first
and the second document. -/
def nowsScan : Nat → Int := fun i => if i == 0 then 20000 * msPerDay else 20000 * msPerDay + 1

/-- C9 counterexample: over a store of two records with the identical
expiry day, the scan that re-samples the clock per record classifies the
first as active and the second as expired, an outcome no single "now"
value for the whole pass can produce; likewise no single "now" reproduces
the resulting stats counts.  So the classification is not computed from
one `now` captured once per scan. -/
theorem scan_not_single_now_counterexample :
    (¬ ∃ t : Int, getAllSubscriptions (fun _ => t) storeScan =
        getAllSubscriptions nowsScan storeScan) ∧
    (¬ ∃ t : Int, getSubscriptionStats (fun _ => t) storeScan =
        getSubscriptionStats nowsScan storeScan) := by
  constructor
  · rintro ⟨t, ht⟩
    have hr : getAllSubscriptions nowsScan storeScan =
        [⟨"a@b.com", 20000, "유효", some 1727000000000⟩,
         ⟨"c@d.com", 20000, "만료", some 1727000000001⟩] := by decide
    rw [hr] at ht
    simp only [getAllSubscriptions, storeScan, listScan, recBoundary, recScanB] at ht
    by_cases hgt : t > 20000 * msPerDay
    · simp [hgt] at ht
    · simp [hgt] at ht
  · rintro ⟨t, ht⟩
    have hr : getSubscriptionStats nowsScan storeScan = ⟨2, 1, 1⟩ := by decide
    rw [hr] at ht
    simp only [getSubscriptionStats, storeScan, statsScan, recBoundary, recScanB] at ht
    by_cases hgt : t > 20000 * msPerDay
    · simp [hgt] at ht
    · simp [hgt] at ht

theorem mem_listScan_const_status (t : Int) (l : List (String × SubscriptionRecord)) :
    ∀ (i : Nat) (e : SubscriptionEntry), e ∈ listScan (fun _ => t) l i →
      e.status = if t > e.expires * msPerDay then "만료" else "유효" := by
  induction l with
  | nil => intro i e he; simp [listScan] at he
  | cons kv rest ih =>
      obtain ⟨u, r⟩ := kv
      intro i e he
      rw [listScan, List.mem_cons] at he
      rcases he with he | he
      · subst he; rfl
      · exact ih (i + 1) e he

theorem statsScan_total (nows : Nat → Int) (l : List (String × SubscriptionRecord)) :
    ∀ (i : Nat) (acc : SubscriptionStats),
      (statsScan nows l i acc).total = acc.total + l.length := by
  induction l with
  | nil => intro i acc; simp [statsScan]
  | cons kv rest ih =>
      obtain ⟨u, r⟩ := kv
      intro i acc
      rw [statsScan, ih]
      simp
      omega

theorem statsScan_active_expired (nows : Nat → Int) (l : List (String × SubscriptionRecord)) :
    ∀ (i : Nat) (acc : SubscriptionStats),
      (statsScan nows l i acc).active + (statsScan nows l i acc).expired =
        acc.active + acc.expired + l.length := by
  induction l with
  | nil => intro i acc; simp [statsScan]
  | cons kv rest ih =>
      obtain ⟨u, r⟩ := kv
      intro i acc
      rw [statsScan, ih]
      by_cases hgt : nows i > r.expires * msPerDay
      · simp [hgt]; omega
      · simp [hgt]; omega

/-- C9 (amended): each record of a scan is classified against its own
freshly sampled `new Date()`; only when the whole pass shares one sample
`t` is the classification time-consistent: any two listed entries with the
same stored expiry get the same status, that status is `만료` exactly when
`t` is past the expiry-date midnight (the same comparison Verify uses),
and in every pass the stats counters satisfy `total = active + expired`. -/
theorem scan_consistent_under_shared_now (s : Store) (t : Int) (e₁ e₂ : SubscriptionEntry)
    (h₁ : e₁ ∈ getAllSubscriptions (fun _ => t) s)
    (h₂ : e₂ ∈ getAllSubscriptions (fun _ => t) s)
    (he : e₁.expires = e₂.expires) :
    e₁.status = e₂.status ∧
    (e₁.status = "만료" ↔ t > e₁.expires * msPerDay) ∧
    (∀ nows : Nat → Int, (getSubscriptionStats nows s).total =
      (getSubscriptionStats nows s).active + (getSubscriptionStats nows s).expired) := by
  have hs₁ := mem_listScan_const_status t s 0 e₁ h₁
  have hs₂ := mem_listScan_const_status t s 0 e₂ h₂
  refine ⟨?_, ?_, ?_⟩
  · rw [hs₁, hs₂, he]
  · rw [hs₁]
    by_cases hgt : t > e₁.expires * msPerDay
    · simp [hgt]
    · simp [hgt]
  · intro nows
    rw [getSubscriptionStats, statsScan_total, statsScan_active_expired]
    simp

theorem scan_consistent_under_shared_now_witness :
    (⟨"a@b.com", 20000, "유효", some 1727000000000⟩ : SubscriptionEntry) ∈
      getAllSubscriptions (fun _ => 20000 * msPerDay) [("a@b.com", recBoundary)] ∧
    (getSubscriptionStats (fun _ => 20000 * msPerDay) [("a@b.com", recBoundary)]).total =
      (getSubscriptionStats (fun _ => 20000 * msPerDay) [("a@b.com", recBoundary)]).active +
      (getSubscriptionStats (fun _ => 20000 * msPerDay) [("a@b.com", recBoundary)]).expired :=
  ⟨by decide,
    (scan_consistent_under_shared_now [("a@b.com", recBoundary)] (20000 * msPerDay)
      ⟨"a@b.com", 20000, "유효", some 1727000000000⟩
      ⟨"a@b.com", 20000, "유효", some 1727000000000⟩
      (by decide) (by decide) rfl).2.2 (fun _ => 20000 * msPerDay)⟩

/-! ## C6: shape of the operation results -/

theorem verifySubscription_shape (now : Int) (s : Store) (u : String) :
    (verifySubscription now s u).message ≠ "" ∧
    ((verifySubscription now s u).message = "구독이 유효합니다." →
      (verifySubscription now s u).expires.isSome) := by
  rw [verifySubscription]
  rcases storeGet s u with _ | r
  · simp
  · by_cases hgt : now > r.expires * msPerDay
    · simp [hgt]
    · simp [hgt]

theorem renewSubscription_shape (now : Int) (s : Store) (u : String) (d : Int) :
    (renewSubscription now s u d).1.message ≠ "" ∧
    ((renewSubscription now s u d).1.message = "구독이 갱신되었습니다." →
      (renewSubscription now s u d).1.expires.isSome) := by
  rw [renewSubscription]
  rcases storeGet s u with _ | r <;> simp

theorem cancelSubscription_shape (s : Store) (u : String) :
    (cancelSubscription s u).1.message ≠ "" := by
  rw [cancelSubscription]
  rcases storeGet s u with _ | r <;> simp

/-- C6 counterexample: the objects returned by the state-machine service
operations hold only `message` (plus `expires` on the reporting success
paths); none of the four operations puts a boolean `success` flag in its
result — the flag is synthesised later by the route layer from the message
string. -/
theorem service_results_lack_success_flag :
    serviceResultKeys (verifySubscription 1728000000000 [("a@b.com", recBoundary)] "a@b.com") =
      ["message", "expires"] ∧
    "success" ∉ serviceResultKeys
      (verifySubscription 1728000000000 [("a@b.com", recBoundary)] "a@b.com") ∧
    "success" ∉ serviceResultKeys
      ((subscribe 1728000000000 [] "a@b.com" 30).1) ∧
    "success" ∉ serviceResultKeys
      ((renewSubscription 1728000000000 [("a@b.com", recBoundary)] "a@b.com" 30).1) ∧
    "success" ∉ serviceResultKeys
      ((cancelSubscription [("a@b.com", recBoundary)] "a@b.com").1) := by
  refine ⟨by decide, by decide, by decide, by decide, by decide⟩

/-- C6 (amended): the service operations return `{message, expires?}`
without a success flag; it is the client route handlers that normalize the
result, deriving the boolean `success` by comparing the message against
the success string of the operation, so every route response carries a boolean
`success` and a nonempty `message`, and carries an expiry whenever
`success` is true for Verify, Subscribe and Renew. -/
theorem routes_return_normalized_result (now : Int) (s : Store) (username : Option String)
    (days : Option Int) :
    ((verifyRoute now s username).message ≠ "" ∧
      ((verifyRoute now s username).success = true →
        (verifyRoute now s username).expires.isSome)) ∧
    ((subscribeRoute now s username days).1.message ≠ "" ∧
      ((subscribeRoute now s username days).1.success = true →
        (subscribeRoute now s username days).1.expires.isSome)) ∧
    ((renewRoute now s username days).1.message ≠ "" ∧
      ((renewRoute now s username days).1.success = true →
        (renewRoute now s username days).1.expires.isSome)) ∧
    (cancelRoute s username).1.message ≠ "" := by
  refine ⟨?_, ?_, ?_, ?_⟩
  · rw [verifyRoute]
    split
    · simp
    · have hv := verifySubscription_shape now s (username.getD "")
      dsimp only
      split
      · next hbeq =>
          simp only [beq_iff_eq] at hbeq
          exact ⟨by simp, fun _ => hv.2 hbeq⟩
      · exact ⟨hv.1, by simp⟩
  · rw [subscribeRoute]
    split
    · simp
    · dsimp only
      split
      · exact ⟨by simp, fun _ => rfl⟩
      · next hbeq => simp [subscribe] at hbeq
  · rw [renewRoute]
    split
    · simp
    · have hv := renewSubscription_shape now s (username.getD "") (daysOrDefault days)
      dsimp only
      split
      · next hbeq =>
          simp only [beq_iff_eq] at hbeq
          exact ⟨by simp, fun _ => hv.2 hbeq⟩
      · exact ⟨hv.1, by simp⟩
  · rw [cancelRoute]
    split
    · simp
    · have hv := cancelSubscription_shape s (username.getD "")
      dsimp only
      split
      · simp
      · exact hv

/-! ## C5: replay window -/

/-- C5: for a request carrying a (truthy) timestamp, the replay-window
violation `Request timestamp is too old` is reported exactly when the
timestamp differs from the current time by strictly more than 300000 ms in
either direction (`Math.abs`), and a request whose other fields are valid
is accepted exactly when the difference is at most 300000 ms; the single
boundary rule is the same on both sides because it is stated on the
absolute difference. -/
theorem replay_window_boundary (now ts : Int) (u sg : String) (hts : ts ≠ 0)
    (hu : u ≠ "") (hue : isValidEmail u = true) (hs : sg ≠ "") :
    ("Request timestamp is too old" ∈
        (validateRequestData now ⟨some u, some ts, some sg⟩).errors ↔
      300000 < (now - ts).natAbs) ∧
    ((validateRequestData now ⟨some u, some ts, some sg⟩).isValid = true ↔
      (now - ts).natAbs ≤ 300000) := by
  simp only [validateRequestData, truthyStr, truthyInt]
  by_cases hw : 300000 < (now - ts).natAbs
  all_goals simp [hu, hts, hs, hue, hw]
  all_goals omega

theorem replay_window_boundary_witness :
    ((1700000000000 - 1699999699999 : Int).natAbs = 300001 ∧
      "Request timestamp is too old" ∈
        (validateRequestData 1700000000000
          ⟨some "a@b.com", some 1699999699999, some "sig"⟩).errors) ∧
    ((1700000000000 - 1699999700001 : Int).natAbs = 299999 ∧
      (validateRequestData 1700000000000
          ⟨some "a@b.com", some 1699999700001, some "sig"⟩).isValid = true ∧
      "Request timestamp is too old" ∉
        (validateRequestData 1700000000000
          ⟨some "a@b.com", some 1699999700001, some "sig"⟩).errors) :=
  ⟨⟨by decide,
    (replay_window_boundary 1700000000000 1699999699999 "a@b.com" "sig"
      (by decide) (by decide) (by decide) (by decide)).1.mpr (by decide)⟩,
   ⟨by decide,
    (replay_window_boundary 1700000000000 1699999700001 "a@b.com" "sig"
      (by decide) (by decide) (by decide) (by decide)).2.mpr (by decide),
    fun hmem =>
      absurd ((replay_window_boundary 1700000000000 1699999700001 "a@b.com" "sig"
        (by decide) (by decide) (by decide) (by decide)).1.mp hmem) (by decide)⟩⟩

/-! ## Hex decoding lemmas -/

theorem char_eq_of_toNat_eq {a b : Char} (h : a.toNat = b.toNat) : a = b := by
  have h2 := congrArg Char.ofNat h
  simpa using h2

theorem lowerHex_ranges {c : Char} (h : isLowerHexDigit c = true) :
    (48 ≤ c.toNat ∧ c.toNat ≤ 57) ∨ (97 ≤ c.toNat ∧ c.toNat ≤ 102) := by
  simpa only [isLowerHexDigit, Bool.or_eq_true, Bool.and_eq_true, decide_eq_true_eq] using h

theorem hexVal_of_digit {c : Char} (h1 : 48 ≤ c.toNat) (h2 : c.toNat ≤ 57) :
    hexVal c = some (c.toNat - 48) := by
  rw [hexVal, if_pos ⟨h1, h2⟩]

theorem hexVal_of_lower {c : Char} (h1 : 97 ≤ c.toNat) (h2 : c.toNat ≤ 102) :
    hexVal c = some (c.toNat - 87) := by
  rw [hexVal, if_neg (by omega), if_pos ⟨h1, h2⟩]

theorem lowerHex_hexVal_isSome {c : Char} (h : isLowerHexDigit c = true) :
    ∃ v, hexVal c = some v := by
  rcases lowerHex_ranges h with ⟨h1, h2⟩ | ⟨h1, h2⟩
  · exact ⟨_, hexVal_of_digit h1 h2⟩
  · exact ⟨_, hexVal_of_lower h1 h2⟩

theorem hexVal_inj_lower {a b : Char} (ha : isLowerHexDigit a = true)
    (hb : isLowerHexDigit b = true) (h : hexVal a = hexVal b) : a = b := by
  rcases lowerHex_ranges ha with ⟨a1, a2⟩ | ⟨a1, a2⟩
  · rcases lowerHex_ranges hb with ⟨b1, b2⟩ | ⟨b1, b2⟩
    · rw [hexVal_of_digit a1 a2, hexVal_of_digit b1 b2] at h
      injection h with h
      exact char_eq_of_toNat_eq (by omega)
    · rw [hexVal_of_digit a1 a2, hexVal_of_lower b1 b2] at h
      injection h with h
      exact char_eq_of_toNat_eq (by omega)
  · rcases lowerHex_ranges hb with ⟨b1, b2⟩ | ⟨b1, b2⟩
    · rw [hexVal_of_lower a1 a2, hexVal_of_digit b1 b2] at h
      injection h with h
      exact char_eq_of_toNat_eq (by omega)
    · rw [hexVal_of_lower a1 a2, hexVal_of_lower b1 b2] at h
      injection h with h
      exact char_eq_of_toNat_eq (by omega)

theorem decodeHexList_cons_cons {a b : Char} {va vb : Nat} (rest : List Char)
    (ha : hexVal a = some va) (hb : hexVal b = some vb) :
    decodeHexList (a :: b :: rest) = (16 * va + vb) :: decodeHexList rest := by
  simp only [decodeHexList, ha, hb]

theorem decodeHex_flip_ne : ∀ (l : List Char) (d c : Char),
    (∀ x ∈ l, isLowerHexDigit x = true) → isLowerHexDigit d = true →
    isLowerHexDigit c = true → (l.length + 1) % 2 = 0 → d ≠ c →
    decodeHexList (l ++ [d]) ≠ decodeHexList (l ++ [c]) ∧
    (decodeHexList (l ++ [d])).length = (decodeHexList (l ++ [c])).length
  | [], _, _, _, _, _, hlen, _ => by simp at hlen
  | [a], d, c, hall, hd, hc, _, hne => by
      obtain ⟨va, hva⟩ := lowerHex_hexVal_isSome (hall a (by simp))
      obtain ⟨vd, hvd⟩ := lowerHex_hexVal_isSome hd
      obtain ⟨vc, hvc⟩ := lowerHex_hexVal_isSome hc
      simp only [List.cons_append, List.nil_append]
      rw [decodeHexList_cons_cons [] hva hvd, decodeHexList_cons_cons [] hva hvc]
      refine ⟨?_, rfl⟩
      intro h
      injection h with h1 _
      have hv : vd = vc := by omega
      exact hne (hexVal_inj_lower hd hc (by rw [hvd, hvc, hv]))
  | a :: b :: rest, d, c, hall, hd, hc, hlen, hne => by
      obtain ⟨va, hva⟩ := lowerHex_hexVal_isSome (hall a (by simp))
      obtain ⟨vb, hvb⟩ := lowerHex_hexVal_isSome (hall b (by simp))
      have hlen2 : (rest.length + 1) % 2 = 0 := by
        simp only [List.length_cons] at hlen
        omega
      have ih := decodeHex_flip_ne rest d c (fun x hx => hall x (by simp [hx])) hd hc hlen2 hne
      simp only [List.cons_append]
      rw [decodeHexList_cons_cons _ hva hvb, decodeHexList_cons_cons _ hva hvb]
      constructor
      · intro h
        injection h with _ h2
        exact ih.1 h2
      · simp [ih.2]

/-! ## C4: roundtrip and flipped-signature rejection -/

/-- C4: verifying a payload against its own signature succeeds, and
verifying against the signature with its last hex character flipped to a
different (lowercase) hex digit fails; stated for any digest function
whose output has the shape of a real `hmac.digest("hex")` value (an even
number, here arbitrary, of lowercase hex characters, decomposed as
`l ++ [d]`). -/
theorem signature_roundtrip_and_flip (hm : String → String) (P : Payload)
    (l : List Char) (d c : Char)
    (hsplit : (generateSignature hm P).toList = l ++ [d])
    (hall : ∀ x ∈ (generateSignature hm P).toList, isLowerHexDigit x = true)
    (heven : (generateSignature hm P).toList.length % 2 = 0)
    (hc : isLowerHexDigit c = true)
    (hne : d ≠ c) :
    verifySignature hm P (generateSignature hm P) = true ∧
    verifySignature hm P (flipLastChar (generateSignature hm P) c) = false := by
  constructor
  · rw [verifySignature]
    simp [timingSafeEqual]
  · have hd : isLowerHexDigit d = true := hall d (by rw [hsplit]; simp)
    have hall2 : ∀ x ∈ l, isLowerHexDigit x = true := fun x hx => hall x (by rw [hsplit]; simp [hx])
    have hlen : (l.length + 1) % 2 = 0 := by
      rw [hsplit] at heven
      simpa using heven
    have hkey := decodeHex_flip_ne l d c hall2 hd hc hlen hne
    have hflip : flipLastChar (generateSignature hm P) c = String.mk (l ++ [c]) := by
      rw [flipLastChar, hsplit]
      simp
    have hb1 : bufferFromHex (generateSignature hm P) = decodeHexList (l ++ [d]) := by
      rw [bufferFromHex, hsplit]
    have hb2 : bufferFromHex (String.mk (l ++ [c])) = decodeHexList (l ++ [c]) := rfl
    rw [verifySignature, hflip, hb1, hb2, timingSafeEqual]
    rw [if_pos (by simpa using hkey.2)]
    simpa using beq_eq_false_iff_ne.mpr hkey.1

def zeros64 : String := "0000000000000000000000000000000000000000000000000000000000000000"

/-- Digest stand-in with the shape of a real hex digest (64 lowercase hex
characters). -/
def hmacFixed : String → String := fun _ => zeros64

theorem signature_roundtrip_and_flip_witness :
    (generateSignature hmacFixed [("user", JVal.str "a@b.com")]).toList =
      List.replicate 63 '0' ++ ['0'] ∧
    verifySignature hmacFixed [("user", JVal.str "a@b.com")]
      (generateSignature hmacFixed [("user", JVal.str "a@b.com")]) = true ∧
    verifySignature hmacFixed [("user", JVal.str "a@b.com")]
      (flipLastChar (generateSignature hmacFixed [("user", JVal.str "a@b.com")]) '1') = false :=
  have happ := signature_roundtrip_and_flip hmacFixed [("user", JVal.str "a@b.com")]
    (List.replicate 63 '0') '0' '1' (by decide) (by decide) (by decide) (by decide) (by decide)
  ⟨by decide, happ.1, happ.2⟩

/-! ## C8: fail-closed comparison -/

/-- C8 counterexample: the Node hex decoder truncates at the first invalid
character, so a provided signature (or stored admin digest) that is not
well-formed hex but whose truncated decoding equals the expected digest
bytes makes `verifySignature` / `verifyAdminPassword` return `true`, not
`false`. -/
theorem malformed_hex_accepted_counterexample :
    wellFormedHex (zeros64 ++ "x") = false ∧
    verifySignature hmacFixed [("user", JVal.str "b@c.com")] (zeros64 ++ "x") = true ∧
    wellFormedHex (zeros64 ++ "zz") = false ∧
    verifyAdminPassword hmacFixed (zeros64 ++ "zz") "pw" = true :=
  ⟨by decide, by decide, by decide, by decide⟩

/-- C8 (amended): `verifySignature` and `verifyAdminPassword` never let the
`timingSafeEqual` length-mismatch exception escape — the catch branch turns
it into `false` — and they return `true` exactly when the Node hex
decoding (which truncates at the first invalid character) of the provided
signature, resp. the stored digest, equals the decoding of the expected
digest; malformed hex usually decodes to a different byte length and is
rejected, but a malformed input whose truncated decoding matches the
expected bytes is accepted. -/
theorem verify_fail_closed_on_length_mismatch (hm sha : String → String) (data : Payload)
    (provided storedHash password : String) :
    (verifySignature hm data provided = true ↔
      bufferFromHex provided = bufferFromHex (generateSignature hm data)) ∧
    (verifyAdminPassword sha storedHash password = true ↔
      bufferFromHex storedHash = bufferFromHex (sha password)) := by
  constructor
  · rw [verifySignature, timingSafeEqual]
    by_cases hlen : (bufferFromHex (generateSignature hm data)).length =
        (bufferFromHex provided).length
    · rw [if_pos (by simpa using hlen)]
      simp only [beq_iff_eq]
      exact eq_comm
    · rw [if_neg (by simpa using hlen)]
      simp only [Bool.false_eq_true, false_iff]
      exact fun h => hlen (by rw [h])
  · rw [verifyAdminPassword, timingSafeEqual]
    by_cases hlen : (bufferFromHex storedHash).length = (bufferFromHex (sha password)).length
    · rw [if_pos (by simpa using hlen)]
      simp [beq_iff_eq]
    · rw [if_neg (by simpa using hlen)]
      simp only [Bool.false_eq_true, false_iff]
      exact fun h => hlen (by rw [h])

/-! ## Lookup and sorting lemmas for the canonical serialization -/

theorem find?_key_congr_of_perm {β : Type} (k : String) {l₁ l₂ : List (String × β)}
    (h : l₁.Perm l₂) : (l₁.map Prod.fst).Nodup →
    List.find? (fun kv => kv.1 == k) l₁ = List.find? (fun kv => kv.1 == k) l₂ := by
  induction h with
  | nil => intro _; rfl
  | cons x h2 ih =>
      intro hnd
      simp only [List.map_cons, List.nodup_cons] at hnd
      by_cases hx : (x.1 == k) = true
      · simp only [List.find?_cons, hx]
      · simp only [Bool.not_eq_true] at hx
        simp only [List.find?_cons, hx]
        exact ih hnd.2
  | swap x y l =>
      intro hnd
      simp only [List.map_cons, List.nodup_cons, List.mem_cons] at hnd
      by_cases hy : (y.1 == k) = true
      · by_cases hx : (x.1 == k) = true
        · exact absurd (Or.inl (by rw [beq_iff_eq] at hy hx; rw [hy, hx]))
            (fun hh => hnd.1 hh)
        · simp only [Bool.not_eq_true] at hx
          simp only [List.find?_cons, hx, hy]
      · simp only [Bool.not_eq_true] at hy
        by_cases hx : (x.1 == k) = true
        · simp only [List.find?_cons, hx, hy]
        · simp only [Bool.not_eq_true] at hx
          simp only [List.find?_cons, hx, hy]
  | trans h₁ h₂ ih₁ ih₂ =>
      intro hnd
      exact (ih₁ hnd).trans (ih₂ (((h₁.map Prod.fst).nodup_iff).mp hnd))

theorem lookupField_congr_of_perm {β : Type} (k : String) {l₁ l₂ : List (String × β)}
    (h : l₁.Perm l₂) (hnd : (l₁.map Prod.fst).Nodup) :
    lookupField l₁ k = lookupField l₂ k := by
  rw [lookupField, lookupField, find?_key_congr_of_perm k h hnd]

theorem lookupField_map_value {β γ : Type} (f : β → γ) (l : List (String × β)) (k : String) :
    lookupField (l.map (fun kv => (kv.1, f kv.2))) k = (lookupField l k).map f := by
  induction l with
  | nil => rfl
  | cons kv rest ih =>
      by_cases hk : (kv.1 == k) = true
      · simp only [List.map_cons, lookupField, List.find?_cons, hk]
        rfl
      · simp only [Bool.not_eq_true] at hk
        simp only [List.map_cons, lookupField, List.find?_cons, hk]
        exact ih

theorem charsLe_cons_iff {x y : Char} {xs ys : List Char} :
    charsLe (x :: xs) (y :: ys) = true ↔
      x.toNat < y.toNat ∨ (x.toNat = y.toNat ∧ charsLe xs ys = true) := by
  by_cases h : x.toNat < y.toNat
  · rw [charsLe, if_pos h]
    simp [h]
  · by_cases h2 : y.toNat < x.toNat
    · rw [charsLe, if_neg h, if_pos h2]
      constructor
      · intro hf; exact absurd hf (by simp)
      · rintro (h3 | ⟨h3, _⟩) <;> omega
    · rw [charsLe, if_neg h, if_neg h2]
      constructor
      · intro hr; exact Or.inr ⟨by omega, hr⟩
      · rintro (h3 | ⟨_, h3⟩)
        · omega
        · exact h3

theorem charsLe_total : ∀ xs ys : List Char, charsLe xs ys = true ∨ charsLe ys xs = true
  | [], _ => Or.inl rfl
  | _ :: _, [] => Or.inr rfl
  | x :: xs, y :: ys => by
      rcases Nat.lt_trichotomy x.toNat y.toNat with h | h | h
      · exact Or.inl (charsLe_cons_iff.mpr (Or.inl h))
      · rcases charsLe_total xs ys with ih | ih
        · exact Or.inl (charsLe_cons_iff.mpr (Or.inr ⟨h, ih⟩))
        · exact Or.inr (charsLe_cons_iff.mpr (Or.inr ⟨h.symm, ih⟩))
      · exact Or.inr (charsLe_cons_iff.mpr (Or.inl h))

theorem charsLe_antisymm : ∀ xs ys : List Char,
    charsLe xs ys = true → charsLe ys xs = true → xs = ys
  | [], [], _, _ => rfl
  | [], _ :: _, _, h2 => by rw [charsLe] at h2; exact absurd h2 (by simp)
  | _ :: _, [], h1, _ => by rw [charsLe] at h1; exact absurd h1 (by simp)
  | x :: xs, y :: ys, h1, h2 => by
      rcases charsLe_cons_iff.mp h1 with h | ⟨he, hr⟩
      · rcases charsLe_cons_iff.mp h2 with h2a | ⟨h2a, _⟩ <;> omega
      · rcases charsLe_cons_iff.mp h2 with h2a | ⟨_, h2r⟩
        · omega
        · rw [char_eq_of_toNat_eq he, charsLe_antisymm xs ys hr h2r]

theorem charsLe_trans : ∀ xs ys zs : List Char,
    charsLe xs ys = true → charsLe ys zs = true → charsLe xs zs = true
  | [], _, _, _, _ => rfl
  | _ :: _, [], _, h1, _ => by rw [charsLe] at h1; exact absurd h1 (by simp)
  | _ :: _, _ :: _, [], _, h2 => by rw [charsLe] at h2; exact absurd h2 (by simp)
  | x :: xs, y :: ys, z :: zs, h1, h2 => by
      rcases charsLe_cons_iff.mp h1 with h | ⟨he, hr⟩
      · rcases charsLe_cons_iff.mp h2 with h2a | ⟨h2a, _⟩
        · exact charsLe_cons_iff.mpr (Or.inl (by omega))
        · exact charsLe_cons_iff.mpr (Or.inl (by omega))
      · rcases charsLe_cons_iff.mp h2 with h2a | ⟨h2a, h2r⟩
        · exact charsLe_cons_iff.mpr (Or.inl (by omega))
        · exact charsLe_cons_iff.mpr (Or.inr ⟨by omega, charsLe_trans xs ys zs hr h2r⟩)

theorem stringLe_antisymm {a b : String} (h1 : stringLe a b = true)
    (h2 : stringLe b a = true) : a = b := by
  have h3 := charsLe_antisymm a.toList b.toList h1 h2
  cases a
  cases b
  exact congrArg String.mk h3

theorem stringLe_trans {a b c : String} (h1 : stringLe a b = true)
    (h2 : stringLe b c = true) : stringLe a c = true :=
  charsLe_trans a.toList b.toList c.toList h1 h2

theorem insertSorted_perm (a : String) (l : List String) :
    (insertSorted a l).Perm (a :: l) := by
  induction l with
  | nil => exact List.Perm.refl _
  | cons b rest ih =>
      rw [insertSorted]
      split
      · exact List.Perm.refl _
      · exact (ih.cons b).trans (List.Perm.swap a b rest)

theorem sortKeys_perm (l : List String) : (sortKeys l).Perm l := by
  induction l with
  | nil => exact List.Perm.refl _
  | cons a rest ih => exact (insertSorted_perm a (sortKeys rest)).trans (ih.cons a)

theorem mem_insertSorted {x a : String} {l : List String} (h : x ∈ insertSorted a l) :
    x = a ∨ x ∈ l := by
  have h2 := (insertSorted_perm a l).mem_iff.mp h
  simpa using h2

theorem insertSorted_pairwise (a : String) (l : List String)
    (h : l.Pairwise (fun x y => stringLe x y = true)) :
    (insertSorted a l).Pairwise (fun x y => stringLe x y = true) := by
  induction l with
  | nil => simp [insertSorted]
  | cons b rest ih =>
      rcases List.pairwise_cons.mp h with ⟨hb, hrest⟩
      rw [insertSorted]
      split
      · next hab =>
          refine List.pairwise_cons.mpr ⟨?_, h⟩
          intro y hy
          rcases List.mem_cons.mp hy with rfl | hy2
          · exact hab
          · exact stringLe_trans hab (hb y hy2)
      · next hab =>
          have hba : stringLe b a = true := by
            rcases charsLe_total a.toList b.toList with hc | hc
            · exact absurd hc hab
            · exact hc
          refine List.pairwise_cons.mpr ⟨?_, ih hrest⟩
          intro y hy
          rcases mem_insertSorted hy with rfl | hy2
          · exact hba
          · exact hb y hy2

theorem sortKeys_pairwise (l : List String) :
    (sortKeys l).Pairwise (fun x y => stringLe x y = true) := by
  induction l with
  | nil => simp [sortKeys]
  | cons a rest ih => exact insertSorted_pairwise a (sortKeys rest) ih

instance : IsAntisymm String (fun a b => stringLe a b = true) :=
  ⟨fun _ _ h1 h2 => stringLe_antisymm h1 h2⟩

theorem sortKeys_congr_perm {l₁ l₂ : List String} (h : l₁.Perm l₂) :
    sortKeys l₁ = sortKeys l₂ :=
  List.eq_of_perm_of_sorted ((sortKeys_perm l₁).trans (h.trans (sortKeys_perm l₂).symm))
    (sortKeys_pairwise l₁) (sortKeys_pairwise l₂)

theorem map_attach_serialize (K : List String) (F : Payload) :
    F.attach.map (fun x => (x.1.1, serializeVal K x.1.2)) =
      F.map (fun kv => (kv.1, serializeVal K kv.2)) := by
  rw [List.attach, List.attachWith, List.map_pmap]
  exact List.pmap_eq_map _ (fun kv => (kv.1, serializeVal K kv.2)) F _

theorem serializeVal_obj (K : List String) (F : Payload) :
    serializeVal K (.obj F) =
      "\x7b" ++ String.intercalate ","
        (objMembers K (F.map (fun kv => (kv.1, serializeVal K kv.2)))) ++ "\x7d" := by
  rw [serializeVal, map_attach_serialize]

/-! ## C3: canonical serialization invariance -/

theorem canonicalMessage_perm {P Q : Payload} (hnd : (P.map Prod.fst).Nodup)
    (h : Q.Perm P) : canonicalMessage Q = canonicalMessage P := by
  rw [canonicalMessage, canonicalMessage]
  have hf : (Q.filter (fun kv => kv.1 != "signature")).Perm
      (P.filter (fun kv => kv.1 != "signature")) := h.filter _
  have hkeys := hf.map Prod.fst
  have hndP : ((P.filter (fun kv => kv.1 != "signature")).map Prod.fst).Nodup := by
    refine List.Nodup.sublist ?_ hnd
    exact (List.filter_sublist P).map Prod.fst
  have hndQ : ((Q.filter (fun kv => kv.1 != "signature")).map Prod.fst).Nodup :=
    (hkeys.nodup_iff).mpr hndP
  rw [sortKeys_congr_perm hkeys]
  rw [serializeVal_obj, serializeVal_obj]
  congr 2
  rw [objMembers, objMembers]
  congr 1
  apply congrArg
    (fun f => List.filterMap f
      (sortKeys ((P.filter (fun kv => kv.1 != "signature")).map Prod.fst)))
  funext k
  rw [lookupField_map_value, lookupField_map_value, lookupField_congr_of_perm k hf hndQ]

theorem canonicalMessage_cons_sig (P : Payload) (X : JVal) :
    canonicalMessage (("signature", X) :: P) = canonicalMessage P := by
  rw [canonicalMessage, canonicalMessage]
  have hfe : ((("signature", X) :: P).filter (fun kv => kv.1 != "signature")) =
      P.filter (fun kv => kv.1 != "signature") := by
    rw [List.filter_cons]
    simp
  rw [hfe]

/-- C3: the signature depends only on the map of non-signature fields —
for a payload `P` with unique keys and no `signature` field, any insertion
order `Q` of `P` signs identically to `P`, and any insertion order `Q` of
`P` with a `signature` field set to an arbitrary value `X` also signs
identically to `P`; this holds for every digest function. -/
theorem signature_order_and_signature_field_invariance (hm : String → String)
    (P Q : Payload) (X : JVal) (hnd : (P.map Prod.fst).Nodup)
    (hsig : "signature" ∉ P.map Prod.fst) :
    (Q.Perm P → generateSignature hm Q = generateSignature hm P) ∧
    (Q.Perm (("signature", X) :: P) → generateSignature hm Q = generateSignature hm P) := by
  constructor
  · intro h
    rw [generateSignature, generateSignature, canonicalMessage_perm hnd h]
  · intro h
    have hnd2 : ((("signature", X) :: P).map Prod.fst).Nodup := by
      simp only [List.map_cons, List.nodup_cons]
      exact ⟨hsig, hnd⟩
    rw [generateSignature, generateSignature, canonicalMessage_perm hnd2 h,
      canonicalMessage_cons_sig]

theorem signature_invariance_witness :
    (([("b", JVal.num 1), ("a", JVal.str "x")] : Payload).map Prod.fst).Nodup ∧
    generateSignature hmacFixed [("a", JVal.str "x"), ("b", JVal.num 1)] =
      generateSignature hmacFixed [("b", JVal.num 1), ("a", JVal.str "x")] ∧
    generateSignature hmacFixed
        [("signature", JVal.str "forged"), ("b", JVal.num 1), ("a", JVal.str "x")] =
      generateSignature hmacFixed [("b", JVal.num 1), ("a", JVal.str "x")] :=
  ⟨by decide,
   (signature_order_and_signature_field_invariance hmacFixed
      [("b", JVal.num 1), ("a", JVal.str "x")] [("a", JVal.str "x"), ("b", JVal.num 1)]
      (JVal.str "forged") (by decide) (by decide)).1
     (List.Perm.swap ("b", JVal.num 1) ("a", JVal.str "x") []),
   (signature_order_and_signature_field_invariance hmacFixed
      [("b", JVal.num 1), ("a", JVal.str "x")]
      [("signature", JVal.str "forged"), ("b", JVal.num 1), ("a", JVal.str "x")]
      (JVal.str "forged") (by decide) (by decide)).2 (List.Perm.refl _)⟩

/-! ## C10: nested payload fields are dropped from the signed string -/

/-- Payload with a nested object whose key `secret` is not among the
top-level keys. -/
def nestedPay (v : String) : Payload :=
  [("username", JVal.str "u@e.com"), ("payload", JVal.obj [("secret", JVal.str v)])]

theorem canonicalMessage_nestedPay (v : String) :
    canonicalMessage (nestedPay v) =
      "\x7b\"payload\":\x7b\x7d,\"username\":\"u@e.com\"\x7d" := by
  simp only [canonicalMessage]
  rw [show (nestedPay v).filter (fun kv => kv.1 != "signature") = nestedPay v from rfl]
  rw [show (nestedPay v).map Prod.fst = ["username", "payload"] from rfl]
  rw [show sortKeys ["username", "payload"] = ["payload", "username"] from by decide]
  simp only [nestedPay]
  rw [serializeVal_obj]
  simp only [List.map_cons, List.map_nil]
  rw [serializeVal_obj]
  simp only [List.map_cons, List.map_nil]
  rw [show objMembers ["payload", "username"]
      [("secret", serializeVal ["payload", "username"] (JVal.str v))] = [] from rfl]
  rw [show serializeVal ["payload", "username"] (JVal.str "u@e.com") = quoteJSON "u@e.com"
      from by simp only [serializeVal]]
  rfl

/-- C10: because the sorted top-level key list is used as the
`JSON.stringify` replacer, it filters every nesting depth, so a nested key
(`secret`) that is not also a top-level key is dropped from the signed
string; two payloads that differ only in the value of such a nested field produce
the same signature under every digest function. -/
theorem nested_field_signature_collision :
    (∀ hm : String → String,
      generateSignature hm (nestedPay "SECRET-A") =
        generateSignature hm (nestedPay "SECRET-B")) ∧
    nestedPay "SECRET-A" ≠ nestedPay "SECRET-B" := by
  constructor
  · intro hm
    rw [generateSignature, generateSignature, canonicalMessage_nestedPay,
      canonicalMessage_nestedPay]
  · intro h
    simp only [nestedPay, List.cons.injEq, Prod.mk.injEq, JVal.obj.injEq, JVal.str.injEq] at h
    exact absurd h.2.1.2.1.2 (by decide)
